import Mathlib

/-!
Shallow embedding of `src/lib/regionValidation.ts` (region registry, admin
configuration store, region resolver, address/route validators, admin
mutation API).  Browser local storage is modelled as an optional stored
cell threaded explicitly; the external geocoder is a function parameter;
the `VITE_ADMIN_ENABLED` environment flag is a Boolean parameter.
-/

/-- The `RegionConfig` record of the source. -/
structure RegionConfig where
  code : String
  name : String
  enabled : Bool
  adminOnly : Bool
  deriving Repr, DecidableEq

/-- The static `REGION_CONFIG` table: a JS `Record` keyed by country code,
kept in insertion order. -/
def REGION_CONFIG : List (String × RegionConfig) :=
  [ ("CL", ⟨"CL", "Chile", true, false⟩),
    ("AR", ⟨"AR", "Argentina", false, true⟩),
    ("PE", ⟨"PE", "Perú", false, true⟩),
    ("BO", ⟨"BO", "Bolivia", false, true⟩),
    ("CO", ⟨"CO", "Colombia", false, true⟩) ]

/-- `Object.values(REGION_CONFIG)` in insertion order. -/
def regionValues : List RegionConfig := REGION_CONFIG.map (fun p => p.2)

/-- The indexing `REGION_CONFIG[code]` (undefined becomes `none`). -/
def regionLookup (code : String) : Option RegionConfig :=
  (REGION_CONFIG.find? (fun p => p.1 == code)).map (fun p => p.2)

/-- The `AdminConfig` record of the source. -/
structure AdminConfig where
  isAdmin : Bool
  enabledRegions : List String
  deriving Repr, DecidableEq

/-- JSON values as produced by `JSON.parse`, extended with `undefinedJs` for the
result of reading an absent property. -/
inductive JsValue where
  | null
  | undefinedJs
  | bool (b : Bool)
  | num (n : Int)
  | str (s : String)
  | arr (elems : List JsValue)
  | obj (fields : List (String × JsValue))

/-- JS truthiness of a value. -/
def jsTruthy : JsValue → Bool
  | .null => false
  | .undefinedJs => false
  | .bool b => b
  | .num n => n != 0
  | .str s => s != ""
  | .arr _ => true
  | .obj _ => true

/-- A property read `v.k`: throws a TypeError on `null`/`undefined`
(modelled as `Except Unit`), yields `undefined` when the property is
absent; primitives and arrays carry none of the fields this module reads. -/
def getProp (v : JsValue) (k : String) : Except Unit JsValue :=
  match v with
  | .null => .error ()
  | .undefinedJs => .error ()
  | .obj fields => .ok ((fields.lookup k).getD .undefinedJs)
  | _ => .ok .undefinedJs

/-- The string persisted at the `transportes_edimburgo_admin` key,
abstracted to the cases the code distinguishes: the empty string (falsy in
the `if (adminFromStorage)` guard), a non-empty string `JSON.parse`
rejects, or a non-empty string parsing to a JSON value. -/
inductive StoredCell where
  | emptyStr
  | invalidJson
  | jsonVal (v : JsValue)

/-- `enabledRegions` is declared `string[]`; extract the strings of an
array value.  Any truthy non-array value would make the later array
methods throw in JS and never arises for data this module writes; it is
modelled as the empty list. -/
def toRegionList : JsValue → List String
  | .arr elems => elems.filterMap (fun e => match e with | .str s => some s | _ => none)
  | _ => []

/-- `getAdminConfig`: a present non-empty stored string is parsed inside
`try`, where a thrown parse error or property access on a non-object
(`null`) yields `{isAdmin:false, enabledRegions:[]}`; the defaults
`parsed.isAdmin || false` and `parsed.enabledRegions || []` are applied to
the parsed fields (`isAdmin` is only ever consumed by truthiness, so it is
coerced here); an absent key or the falsy empty string falls back to the
environment flag with an empty region list. -/
def getAdminConfig (slot : Option StoredCell) (envAdmin : Bool) : AdminConfig :=
  match slot with
  | none => ⟨envAdmin, []⟩
  | some .emptyStr => ⟨envAdmin, []⟩
  | some .invalidJson => ⟨false, []⟩
  | some (.jsonVal v) =>
    match getProp v "isAdmin" with
    | .error _ => ⟨false, []⟩
    | .ok adminProp =>
      match getProp v "enabledRegions" with
      | .error _ => ⟨false, []⟩
      | .ok regionsProp =>
        ⟨jsTruthy adminProp, if jsTruthy regionsProp then toRegionList regionsProp else []⟩

/-- `if (!enabled.includes(code)) enabled.push(code)`. -/
def insertUnique (acc : List String) (x : String) : List String :=
  if acc.contains x then acc else acc ++ [x]

/-- `[...new Set(xs)]`: first-occurrence deduplication. -/
def jsSetDedup (xs : List String) : List String := xs.foldl insertUnique []

/-- The body of `getEnabledRegions` after its `getAdminConfig()` read,
parameterised by the configuration that read returned: push the
default-enabled registry codes, then, for an admin, push every stored
code not yet present, then push the adminOnly registry codes listed in
the stored `enabledRegions`. -/
def getEnabledRegionsFrom (adminConfig : AdminConfig) : List String :=
  let enabled :=
    regionValues.foldl
      (fun acc region =>
        if region.enabled && !region.adminOnly then acc ++ [region.code] else acc) []
  if adminConfig.isAdmin then
    let enabled1 := adminConfig.enabledRegions.foldl insertUnique enabled
    regionValues.foldl
      (fun acc region =>
        if region.adminOnly && adminConfig.enabledRegions.contains region.code then
          insertUnique acc region.code
        else acc)
      enabled1
  else enabled

/-- `getEnabledRegions`. -/
def getEnabledRegions (slot : Option StoredCell) (envAdmin : Bool) : List String :=
  getEnabledRegionsFrom (getAdminConfig slot envAdmin)

/-- `REGION_CONFIG[c]?.name || c`. -/
def regionDisplayName (c : String) : String :=
  match regionLookup c with
  | some r => if r.name = "" then c else r.name
  | none => c

/-- One entry of a geocoder result's `address_components`. -/
structure AddressComponent where
  types : List String
  short_name : String
  long_name : String
  deriving Repr, DecidableEq

/-- The geocoder callback outcome for one request: `ok comps` stands for
status `OK` with a non-empty result list whose first result has
`address_components = comps`; `failure` stands for any non-OK status or an
empty result list. -/
inductive GeocodeResponse where
  | ok (components : List AddressComponent)
  | failure

/-- A single address validation result `{valid, countryCode, error?}`. -/
structure AddressValidation where
  valid : Bool
  countryCode : Option String
  error : Option String
  deriving Repr, DecidableEq

/-- `validateAddressRegion`: the Google Maps availability check and the
geocoder are parameters; the promise resolution is the return value (the
function always resolves, never throws). -/
def validateAddressRegion (mapsLoaded : Bool) (geocode : String → GeocodeResponse)
    (slot : Option StoredCell) (envAdmin : Bool) (address : String) : AddressValidation :=
  if !mapsLoaded then
    ⟨false, none, some "Google Maps no está cargado"⟩
  else
    let enabledRegions := getEnabledRegions slot envAdmin
    match geocode address with
    | .failure => ⟨false, none, some "No se pudo validar la dirección"⟩
    | .ok addressComponents =>
      match addressComponents.find? (fun c => c.types.contains "country") with
      | none => ⟨false, none, some "No se pudo determinar el país de la dirección"⟩
      | some comp =>
        let countryCode := comp.short_name
        if countryCode = "" then
          ⟨false, none, some "No se pudo determinar el país de la dirección"⟩
        else if enabledRegions.contains countryCode then
          ⟨true, some countryCode, none⟩
        else
          let countryName :=
            match addressComponents.find? (fun c => c.types.contains "country") with
            | some c => if c.long_name = "" then countryCode else c.long_name
            | none => countryCode
          ⟨false, some countryCode,
            some ("Las rutas fuera de " ++
              String.intercalate ", " (enabledRegions.map regionDisplayName) ++
              " no están permitidas. Contacta a un administrador para habilitar " ++
              countryName ++ ".")⟩

/-- The route validation result `{valid, errors}`. -/
structure RouteValidation where
  valid : Bool
  errors : List String
  deriving Repr, DecidableEq

/-- `validation.error || 'Dirección no válida'` (JS `||` on strings). -/
def errOrDefault : Option String → String
  | none => "Dirección no válida"
  | some s => if s = "" then "Dirección no válida" else s

/-- JS truthiness of a `string | null` country code. -/
def optStrTruthy : Option String → Bool
  | none => false
  | some s => s != ""

/-- `validateRouteRegions`: validate each side, then, when both sides
carry a truthy country code, re-check each code against the resolved
enabled set and append a further message per side outside it.  The `.getD`
unwraps are guarded by the truthiness test just before them. -/
def validateRouteRegions (mapsLoaded : Bool) (geocode : String → GeocodeResponse)
    (slot : Option StoredCell) (envAdmin : Bool) (origin destination : String) :
    RouteValidation :=
  let originValidation := validateAddressRegion mapsLoaded geocode slot envAdmin origin
  let errors : List String :=
    if !originValidation.valid then
      ["Origen: " ++ errOrDefault originValidation.error]
    else []
  let destinationValidation := validateAddressRegion mapsLoaded geocode slot envAdmin destination
  let errors :=
    if !destinationValidation.valid then
      errors ++ ["Destino: " ++ errOrDefault destinationValidation.error]
    else errors
  let errors :=
    if optStrTruthy originValidation.countryCode &&
        optStrTruthy destinationValidation.countryCode then
      let enabledRegions := getEnabledRegions slot envAdmin
      let errors :=
        if !(enabledRegions.contains (originValidation.countryCode.getD "")) then
          errors ++ ["El origen debe estar en " ++
            String.intercalate ", " (enabledRegions.map regionDisplayName)]
        else errors
      if !(enabledRegions.contains (destinationValidation.countryCode.getD "")) then
        errors ++ ["El destino debe estar en " ++
          String.intercalate ", " (enabledRegions.map regionDisplayName)]
      else errors
    else errors
  ⟨errors.isEmpty, errors⟩

/-- The faults thrown by the admin mutation API. -/
inductive ToggleFault where
  | unauthorized
  | unknownRegion (code : String)
  deriving Repr, DecidableEq

/-- Result of `toggleRegionForAdmin`: the fault raised (if any) and the
state of the stored cell after the call. -/
structure ToggleOutcome where
  fault : Option ToggleFault
  store : Option StoredCell

/-- `JSON.stringify` of an `AdminConfig`, at the parsed-value level. -/
def encodeAdmin (cfg : AdminConfig) : JsValue :=
  .obj [("isAdmin", .bool cfg.isAdmin),
        ("enabledRegions", .arr (cfg.enabledRegions.map JsValue.str))]

/-- `toggleRegionForAdmin`: throws without admin rights, throws for a code
outside the registry, and otherwise persists the updated configuration.
The stored cell is threaded explicitly; on a fault it is returned
unchanged, since the source throws before reaching `localStorage.setItem`. -/
def toggleRegionForAdmin (slot : Option StoredCell) (envAdmin : Bool)
    (regionCode : String) (enabled : Bool) : ToggleOutcome :=
  let adminConfig := getAdminConfig slot envAdmin
  if !adminConfig.isAdmin then
    ⟨some .unauthorized, slot⟩
  else
    match regionLookup regionCode with
    | none => ⟨some (.unknownRegion regionCode), slot⟩
    | some _ =>
      let updatedEnabledRegions :=
        if enabled then jsSetDedup (adminConfig.enabledRegions ++ [regionCode])
        else adminConfig.enabledRegions.filter (fun code => code != regionCode)
      let updatedConfig : AdminConfig := { adminConfig with enabledRegions := updatedEnabledRegions }
      ⟨none, some (.jsonVal (encodeAdmin updatedConfig))⟩

/-- Whether `JSON.parse` yielded an object. -/
def isJsObj : JsValue → Bool
  | .obj _ => true
  | _ => false

/-- A concrete geocoder fixture: Santiago resolves to country `CL`,
Mendoza to country `AR`, anything else fails. -/
def geoC2 : String → GeocodeResponse := fun a =>
  if a = "Santiago, Chile" then .ok [⟨["country"], "CL", "Chile"⟩]
  else if a = "Mendoza, Argentina" then .ok [⟨["country"], "AR", "Argentina"⟩]
  else .failure

/-! ### Helper lemmas about the resolver's list operations -/

theorem contains_iff_mem (l : List String) (x : String) : l.contains x = true ↔ x ∈ l := by
  simp [List.contains, List.elem_iff]

theorem mem_insertUnique (acc : List String) (x y : String) :
    y ∈ insertUnique acc x ↔ y ∈ acc ∨ y = x := by
  unfold insertUnique
  by_cases h : acc.contains x = true
  · rw [if_pos h]
    have hx : x ∈ acc := (contains_iff_mem acc x).mp h
    constructor
    · exact Or.inl
    · rintro (hy | rfl)
      · exact hy
      · exact hx
  · rw [if_neg h]
    simp [List.mem_append]

theorem mem_foldl_insertUnique (L : List String) (acc : List String) (y : String) :
    y ∈ L.foldl insertUnique acc ↔ y ∈ acc ∨ y ∈ L := by
  induction L generalizing acc with
  | nil => simp
  | cons x xs ih =>
    rw [List.foldl_cons, ih, mem_insertUnique]
    simp [List.mem_cons]
    tauto

theorem foldl_insertUnique_eq_append (L acc : List String) (h : (acc ++ L).Nodup) :
    L.foldl insertUnique acc = acc ++ L := by
  induction L generalizing acc with
  | nil => simp
  | cons x xs ih =>
    rw [List.append_cons] at h
    have hx : ¬acc.contains x = true := by
      rw [contains_iff_mem]
      intro hmem
      have := (List.nodup_append.mp ((List.append_assoc acc [x] xs ▸ h))).2.2
      exact this hmem (by simp)
    rw [List.foldl_cons]
    have : insertUnique acc x = acc ++ [x] := by rw [insertUnique, if_neg hx]
    rw [this, ih (acc ++ [x]) h]
    simp

theorem nodup_insertUnique (acc : List String) (x : String) (h : acc.Nodup) :
    (insertUnique acc x).Nodup := by
  unfold insertUnique
  by_cases hc : acc.contains x = true
  · rwa [if_pos hc]
  · rw [if_neg hc]
    refine List.Nodup.append h (by simp) ?_
    intro a ha hb
    simp at hb
    subst hb
    exact hc ((contains_iff_mem acc a).mpr ha)

theorem nodup_foldl_insertUnique (L acc : List String) (h : acc.Nodup) :
    (L.foldl insertUnique acc).Nodup := by
  induction L generalizing acc with
  | nil => simpa
  | cons x xs ih => exact ih (insertUnique acc x) (nodup_insertUnique acc x h)

theorem foldl_guard_noop (P : RegionConfig → Bool) (L : List RegionConfig)
    (acc : List String) (h : ∀ r ∈ L, P r = true → acc.contains r.code = true) :
    L.foldl (fun a r => if P r then insertUnique a r.code else a) acc = acc := by
  induction L with
  | nil => rfl
  | cons x xs ih =>
    rw [List.foldl_cons]
    by_cases hP : P x = true
    · rw [if_pos hP]
      have hx : acc.contains x.code = true := h x (by simp) hP
      rw [insertUnique, if_pos hx]
      exact ih (fun r hr hPr => h r (List.mem_cons_of_mem x hr) hPr)
    · rw [if_neg hP]
      exact ih (fun r hr hPr => h r (List.mem_cons_of_mem x hr) hPr)

theorem defaultCodes_eq :
    regionValues.foldl
      (fun acc region =>
        if region.enabled && !region.adminOnly then acc ++ [region.code] else acc) []
      = ["CL"] := by rfl

theorem getEnabledRegionsFrom_not_admin (cfg : AdminConfig) (h : cfg.isAdmin = false) :
    getEnabledRegionsFrom cfg = ["CL"] := by
  rw [getEnabledRegionsFrom, h]
  simpa using defaultCodes_eq

theorem getEnabledRegionsFrom_admin (cfg : AdminConfig) (h : cfg.isAdmin = true) :
    getEnabledRegionsFrom cfg = cfg.enabledRegions.foldl insertUnique ["CL"] := by
  rw [getEnabledRegionsFrom, h]
  simp only [if_true, defaultCodes_eq]
  refine foldl_guard_noop _ regionValues _ ?_
  intro r _ hPr
  have hmem : r.code ∈ cfg.enabledRegions := by
    have := (Bool.and_eq_true _ _).mp hPr
    exact (contains_iff_mem _ _).mp this.2
  rw [contains_iff_mem, mem_foldl_insertUnique]
  exact Or.inr hmem

theorem mem_getEnabledRegionsFrom (cfg : AdminConfig) (y : String) :
    y ∈ getEnabledRegionsFrom cfg ↔
      y = "CL" ∨ (cfg.isAdmin = true ∧ y ∈ cfg.enabledRegions) := by
  cases hA : cfg.isAdmin with
  | false =>
    rw [getEnabledRegionsFrom_not_admin cfg hA]
    simp
  | true =>
    rw [getEnabledRegionsFrom_admin cfg hA, mem_foldl_insertUnique]
    simp

theorem toRegionList_encode (L : List String) :
    toRegionList (.arr (L.map JsValue.str)) = L := by
  induction L with
  | nil => rfl
  | cons x xs ih =>
    simp only [toRegionList, List.map_cons, List.filterMap_cons] at ih ⊢
    rw [ih]

theorem decode_encode (cfg : AdminConfig) (envAdmin : Bool) :
    getAdminConfig (some (.jsonVal (encodeAdmin cfg))) envAdmin = cfg := by
  cases cfg with
  | mk a L =>
    show (⟨a, toRegionList (.arr (L.map JsValue.str))⟩ : AdminConfig) = ⟨a, L⟩
    rw [toRegionList_encode]

theorem jsSetDedup_eq_self (L : List String) (h : L.Nodup) : jsSetDedup L = L := by
  have := foldl_insertUnique_eq_append L [] (by simpa)
  simpa [jsSetDedup] using this

/-! ### Claims about the region resolver -/

/-- Claim C1 as stated fails on the code: when `isAdmin` is true, every
stored code is pushed into the enabled set verbatim, with no registry
check, so a code absent from the registry does appear.  Concretely, with
`{isAdmin:true, enabledRegions:["XX"]}` persisted, the unregistered code
`"XX"` is in the set returned by `getEnabledRegions`. -/
theorem unregisteredCode_included_cex :
    regionLookup "XX" = none ∧
      "XX" ∈ getEnabledRegions (some (.jsonVal (encodeAdmin ⟨true, ["XX"]⟩))) false := by
  constructor
  · rfl
  · decide

/-- Claim C1 amended: a code absent from the registry is ignored by the
resolver exactly when the caller is not an admin or the code is not in the
stored `enabledRegions` list; an admin's stored unregistered codes are
included in the resolved set. -/
theorem unregisteredCode_mem_iff (cfg : AdminConfig) (code : String)
    (h : regionLookup code = none) :
    code ∈ getEnabledRegionsFrom cfg ↔
      cfg.isAdmin = true ∧ code ∈ cfg.enabledRegions := by
  have hne : code ≠ "CL" := by
    intro hc
    subst hc
    exact absurd h (by decide)
  rw [mem_getEnabledRegionsFrom]
  simp [hne]

theorem unregisteredCode_mem_iff_witness :
    "XX" ∈ getEnabledRegionsFrom ⟨true, ["ZZ", "XX"]⟩ ↔
      (⟨true, ["ZZ", "XX"]⟩ : AdminConfig).isAdmin = true ∧
        "XX" ∈ (⟨true, ["ZZ", "XX"]⟩ : AdminConfig).enabledRegions :=
  unregisteredCode_mem_iff ⟨true, ["ZZ", "XX"]⟩ "XX" (by decide)

/-- Claim C5: a registry code with `adminOnly = true` is in the resolved
enabled set iff the caller is an admin and the code is listed in the
stored `enabledRegions`. -/
theorem adminOnly_mem_iff (r : RegionConfig) (hr : r ∈ regionValues)
    (hAO : r.adminOnly = true) (cfg : AdminConfig) :
    r.code ∈ getEnabledRegionsFrom cfg ↔
      cfg.isAdmin = true ∧ r.code ∈ cfg.enabledRegions := by
  have key : ∀ x ∈ regionValues, x.adminOnly = true → x.code ≠ "CL" := by decide
  rw [mem_getEnabledRegionsFrom]
  simp [key r hr hAO]

theorem adminOnly_mem_iff_witness :
    "AR" ∈ getEnabledRegionsFrom ⟨true, ["AR"]⟩ ↔
      (⟨true, ["AR"]⟩ : AdminConfig).isAdmin = true ∧
        "AR" ∈ (⟨true, ["AR"]⟩ : AdminConfig).enabledRegions :=
  adminOnly_mem_iff ⟨"AR", "Argentina", false, true⟩ (by decide) (by decide) ⟨true, ["AR"]⟩

/-- Claim C6: a registry code with `adminOnly = false` is in the resolved
enabled set for every admin configuration. -/
theorem nonAdminOnly_always_mem (r : RegionConfig) (hr : r ∈ regionValues)
    (hAO : r.adminOnly = false) (cfg : AdminConfig) :
    r.code ∈ getEnabledRegionsFrom cfg := by
  have key : ∀ x ∈ regionValues, x.adminOnly = false → x.code = "CL" := by decide
  rw [mem_getEnabledRegionsFrom]
  exact Or.inl (key r hr hAO)

theorem nonAdminOnly_always_mem_witness :
    "CL" ∈ getEnabledRegionsFrom ⟨false, ["AR", "AR"]⟩ :=
  nonAdminOnly_always_mem ⟨"CL", "Chile", true, false⟩ (by decide) (by decide)
    ⟨false, ["AR", "AR"]⟩

/-- Claim C10: the list the resolver returns never contains a duplicate
code, for every admin configuration (including stored `enabledRegions`
lists that contain duplicates) and for every stored cell. -/
theorem enabledRegions_nodup :
    (∀ cfg : AdminConfig, (getEnabledRegionsFrom cfg).Nodup) ∧
      (∀ (slot : Option StoredCell) (envAdmin : Bool),
        (getEnabledRegions slot envAdmin).Nodup) := by
  have h1 : ∀ cfg : AdminConfig, (getEnabledRegionsFrom cfg).Nodup := by
    intro cfg
    cases hA : cfg.isAdmin with
    | false =>
      rw [getEnabledRegionsFrom_not_admin cfg hA]
      decide
    | true =>
      rw [getEnabledRegionsFrom_admin cfg hA]
      exact nodup_foldl_insertUnique _ _ (by decide)
  exact ⟨h1, fun slot envAdmin => h1 _⟩

/-! ### Claims about the admin mutation API -/

theorem toggle_on (cfg : AdminConfig) (envAdmin : Bool) (regionCode : String)
    (hadmin : cfg.isAdmin = true) (r : RegionConfig) (hr : regionLookup regionCode = some r) :
    toggleRegionForAdmin (some (.jsonVal (encodeAdmin cfg))) envAdmin regionCode true =
      ⟨none, some (.jsonVal (encodeAdmin
        ⟨cfg.isAdmin, jsSetDedup (cfg.enabledRegions ++ [regionCode])⟩))⟩ := by
  simp only [toggleRegionForAdmin, decode_encode, hadmin, hr]
  rfl

theorem toggle_off (cfg : AdminConfig) (envAdmin : Bool) (regionCode : String)
    (hadmin : cfg.isAdmin = true) (r : RegionConfig) (hr : regionLookup regionCode = some r) :
    toggleRegionForAdmin (some (.jsonVal (encodeAdmin cfg))) envAdmin regionCode false =
      ⟨none, some (.jsonVal (encodeAdmin
        ⟨cfg.isAdmin, cfg.enabledRegions.filter (fun code => code != regionCode)⟩))⟩ := by
  simp only [toggleRegionForAdmin, decode_encode, hadmin, hr]
  rfl

/-- Claim C3 as stated fails on the code: enabling then disabling a code
that was already stored removes it.  With `{isAdmin:true,
enabledRegions:["AR"]}` persisted, `toggle("AR", true)` then
`toggle("AR", false)` leaves the stored list empty and shrinks the
resolved enabled set, instead of restoring the prior state. -/
theorem toggle_roundTrip_cex :
    (getAdminConfig (toggleRegionForAdmin
        (toggleRegionForAdmin (some (.jsonVal (encodeAdmin ⟨true, ["AR"]⟩))) false "AR" true).store
        false "AR" false).store false).enabledRegions = [] ∧
      (getAdminConfig (some (.jsonVal (encodeAdmin ⟨true, ["AR"]⟩))) false).enabledRegions = ["AR"] ∧
      getEnabledRegions (toggleRegionForAdmin
        (toggleRegionForAdmin (some (.jsonVal (encodeAdmin ⟨true, ["AR"]⟩))) false "AR" true).store
        false "AR" false).store false = ["CL"] ∧
      getEnabledRegions (some (.jsonVal (encodeAdmin ⟨true, ["AR"]⟩))) false = ["CL", "AR"] := by
  refine ⟨by decide, by decide, by decide, by decide⟩

/-- Claim C3 amended: for an admin and a registry code, `toggle(code,
true)` followed by `toggle(code, false)` restores the stored cell (hence
the stored `enabledRegions` and the resolved enabled set) exactly,
provided the code was not already in the stored duplicate-free
`enabledRegions` list; when the code was already stored, the round trip
instead removes it. -/
theorem toggle_roundTrip_restores (cfg : AdminConfig) (envAdmin : Bool) (regionCode : String)
    (hadmin : cfg.isAdmin = true)
    (hreg : (regionLookup regionCode).isSome = true)
    (hnotmem : regionCode ∉ cfg.enabledRegions)
    (hnd : cfg.enabledRegions.Nodup) :
    (toggleRegionForAdmin (some (.jsonVal (encodeAdmin cfg))) envAdmin regionCode true).fault
        = none ∧
      (toggleRegionForAdmin (toggleRegionForAdmin (some (.jsonVal (encodeAdmin cfg)))
          envAdmin regionCode true).store envAdmin regionCode false).fault = none ∧
      (toggleRegionForAdmin (toggleRegionForAdmin (some (.jsonVal (encodeAdmin cfg)))
          envAdmin regionCode true).store envAdmin regionCode false).store
        = some (.jsonVal (encodeAdmin cfg)) := by
  obtain ⟨r, hr⟩ := Option.isSome_iff_exists.mp hreg
  have happ : (cfg.enabledRegions ++ [regionCode]).Nodup := by
    rw [List.nodup_append]
    refine ⟨hnd, List.nodup_singleton _, ?_⟩
    intro a ha hb
    rw [List.mem_singleton] at hb
    subst hb
    exact hnotmem ha
  have h1 := toggle_on cfg envAdmin regionCode hadmin r hr
  rw [jsSetDedup_eq_self _ happ] at h1
  have h2 := toggle_off ⟨cfg.isAdmin, cfg.enabledRegions ++ [regionCode]⟩ envAdmin regionCode
    hadmin r hr
  have hfil : (cfg.enabledRegions ++ [regionCode]).filter (fun code => code != regionCode)
      = cfg.enabledRegions := by
    rw [List.filter_append]
    have hka : cfg.enabledRegions.filter (fun code => code != regionCode)
        = cfg.enabledRegions := by
      apply List.filter_eq_self.mpr
      intro a ha
      simp only [bne_iff_ne, ne_eq, decide_eq_true_eq]
      intro hEq
      exact hnotmem (hEq ▸ ha)
    have hkb : List.filter (fun code => code != regionCode) [regionCode] = ([] : List String) := by
      simp
    rw [hka, hkb, List.append_nil]
  simp only [AdminConfig.isAdmin, AdminConfig.enabledRegions, hfil] at h2
  refine ⟨?_, ?_, ?_⟩
  · rw [h1]
  · rw [h1]
    simp only [ToggleOutcome.store]
    rw [h2]
  · rw [h1]
    simp only [ToggleOutcome.store]
    rw [h2]

theorem toggle_roundTrip_restores_witness :
    (toggleRegionForAdmin (some (.jsonVal (encodeAdmin ⟨true, ["PE"]⟩))) false "AR" true).fault
        = none ∧
      (toggleRegionForAdmin (toggleRegionForAdmin (some (.jsonVal (encodeAdmin ⟨true, ["PE"]⟩)))
          false "AR" true).store false "AR" false).fault = none ∧
      (toggleRegionForAdmin (toggleRegionForAdmin (some (.jsonVal (encodeAdmin ⟨true, ["PE"]⟩)))
          false "AR" true).store false "AR" false).store
        = some (.jsonVal (encodeAdmin ⟨true, ["PE"]⟩)) :=
  toggle_roundTrip_restores ⟨true, ["PE"]⟩ false "AR" rfl (by decide) (by decide) (by decide)

/-- Claim C4: without admin rights the mutation API raises `Unauthorized`
and the stored cell is returned untouched (the source throws before
reaching `localStorage.setItem`). -/
theorem toggle_nonAdmin_unauthorized (slot : Option StoredCell) (envAdmin : Bool)
    (regionCode : String) (enabled : Bool)
    (h : (getAdminConfig slot envAdmin).isAdmin = false) :
    toggleRegionForAdmin slot envAdmin regionCode enabled = ⟨some .unauthorized, slot⟩ := by
  simp only [toggleRegionForAdmin, h]
  rfl

theorem toggle_nonAdmin_unauthorized_witness :
    toggleRegionForAdmin none false "AR" true = ⟨some .unauthorized, none⟩ :=
  toggle_nonAdmin_unauthorized none false "AR" true rfl

/-- Claim C8: for an admin, toggling a code absent from the registry
raises `UnknownRegion` and the stored cell is returned untouched (the
source throws before reaching `localStorage.setItem`). -/
theorem toggle_unknownRegion_fault (slot : Option StoredCell) (envAdmin : Bool)
    (regionCode : String) (enabled : Bool)
    (hadmin : (getAdminConfig slot envAdmin).isAdmin = true)
    (hreg : regionLookup regionCode = none) :
    toggleRegionForAdmin slot envAdmin regionCode enabled =
      ⟨some (.unknownRegion regionCode), slot⟩ := by
  simp only [toggleRegionForAdmin, hadmin, hreg]
  rfl

theorem toggle_unknownRegion_fault_witness :
    toggleRegionForAdmin (some (.jsonVal (encodeAdmin ⟨true, []⟩))) false "XX" true =
      ⟨some (.unknownRegion "XX"), some (.jsonVal (encodeAdmin ⟨true, []⟩))⟩ :=
  toggle_unknownRegion_fault (some (.jsonVal (encodeAdmin ⟨true, []⟩))) false "XX" true rfl rfl

/-! ### Claims about the admin configuration store and the validators -/

/-- Claim C7 as stated fails on one edge: the empty string stored at the
admin key is not valid JSON, yet it is falsy, so `getAdminConfig` skips
the parse and falls back to the environment flag; with
`VITE_ADMIN_ENABLED === 'true'` it returns `isAdmin = true` rather than
the documented `{isAdmin:false, enabledRegions:[]}`. -/
theorem malformedStored_cex :
    getAdminConfig (some .emptyStr) true = ⟨true, []⟩ ∧
      ¬(getAdminConfig (some .emptyStr) true = ⟨false, []⟩) := by
  exact ⟨rfl, by decide⟩

/-- Claim C7 amended: for every non-empty stored string that is not valid
JSON, or that parses to a non-object, `getAdminConfig` returns
`{isAdmin:false, enabledRegions:[]}` and raises no fault (the thrown
parse or property-access errors are caught inside the function); the
empty stored string is falsy and instead falls back to the environment
flag with an empty region list. -/
theorem malformedStored_default (cell : StoredCell) (envAdmin : Bool)
    (h : cell = .invalidJson ∨ ∃ v, cell = .jsonVal v ∧ isJsObj v = false) :
    getAdminConfig (some cell) envAdmin = ⟨false, []⟩ := by
  rcases h with rfl | ⟨v, rfl, hv⟩
  · rfl
  · cases v <;> first
      | rfl
      | exact absurd hv (by simp [isJsObj])

theorem malformedStored_default_witness :
    getAdminConfig (some .invalidJson) true = ⟨false, []⟩ :=
  malformedStored_default .invalidJson true (Or.inl rfl)

/-- Claim C9: with the mapping engine not loaded, `validateAddressRegion`
returns data rather than raising a fault (the embedding is a total
function): `valid = false`, no country code, and a non-empty error
message, for every geocoder, stored state, and address. -/
theorem validateAddress_mapsUnloaded (geocode : String → GeocodeResponse)
    (slot : Option StoredCell) (envAdmin : Bool) (address : String) :
    validateAddressRegion false geocode slot envAdmin address =
        ⟨false, none, some "Google Maps no está cargado"⟩ ∧
      "Google Maps no está cargado" ≠ "" := by
  exact ⟨rfl, by decide⟩

/-- Claim C2 as stated fails on the code: with the default configuration,
an origin geocoding to `CL` and a destination geocoding to `AR` yield
`valid = false` but two error entries, not exactly one — the per-address
`Destino:` message plus the redundant route-level re-check message. -/
theorem routeCLAR_two_errors_cex :
    (validateRouteRegions true geoC2 none false
        "Santiago, Chile" "Mendoza, Argentina").valid = false ∧
      (validateRouteRegions true geoC2 none false
        "Santiago, Chile" "Mendoza, Argentina").errors.length = 2 ∧
      (2 : Nat) ≠ 1 := by
  exact ⟨rfl, rfl, by decide⟩

/-- Claim C2 amended: under the default configuration, with an origin
whose first country component has short code `CL` and a destination whose
first country component has short code `AR` (display name `Argentina`),
`validateRouteRegions` returns `valid = false` with exactly two error
entries, both referencing the destination: the `Destino:` per-address
message and the redundant `El destino debe estar en Chile` re-check
message. -/
theorem routeCLAR_result (geocode : String → GeocodeResponse) (origin destination : String)
    (ocomps dcomps : List AddressComponent) (oc dc : AddressComponent)
    (hgo : geocode origin = .ok ocomps)
    (hfo : ocomps.find? (fun c => c.types.contains "country") = some oc)
    (hoc : oc.short_name = "CL")
    (hgd : geocode destination = .ok dcomps)
    (hfd : dcomps.find? (fun c => c.types.contains "country") = some dc)
    (hdc : dc.short_name = "AR")
    (hdn : dc.long_name = "Argentina") :
    validateRouteRegions true geocode none false origin destination =
      ⟨false,
        ["Destino: Las rutas fuera de Chile no están permitidas. Contacta a un administrador para habilitar Argentina.",
         "El destino debe estar en Chile"]⟩ := by
  have hov : validateAddressRegion true geocode none false origin = ⟨true, some "CL", none⟩ := by
    simp only [validateAddressRegion, hgo, hfo, hoc]
    rfl
  have hdv : validateAddressRegion true geocode none false destination =
      ⟨false, some "AR",
        some "Las rutas fuera de Chile no están permitidas. Contacta a un administrador para habilitar Argentina."⟩ := by
    simp only [validateAddressRegion, hgd, hfd, hdc, hdn]
    rfl
  simp only [validateRouteRegions, hov, hdv]
  rfl

theorem routeCLAR_result_witness :
    validateRouteRegions true geoC2 none false "Santiago, Chile" "Mendoza, Argentina" =
      ⟨false,
        ["Destino: Las rutas fuera de Chile no están permitidas. Contacta a un administrador para habilitar Argentina.",
         "El destino debe estar en Chile"]⟩ :=
  routeCLAR_result geoC2 "Santiago, Chile" "Mendoza, Argentina"
    [⟨["country"], "CL", "Chile"⟩] [⟨["country"], "AR", "Argentina"⟩]
    ⟨["country"], "CL", "Chile"⟩ ⟨["country"], "AR", "Argentina"⟩
    rfl rfl rfl rfl rfl rfl rfl
